import Mathlib

/-!
Shallow embedding of the voiceprint SDK core (speaker store, cosine matcher,
agglomerative clustering, VAD segmentation, resampler, voice-state rules,
sqlite row loading) and proofs of the spec claims about it.

Modelling conventions:
* C++ `float`/`double` arithmetic is modelled exactly (no IEEE rounding).
  Every float value is a rational number, so components that use only field
  operations and comparisons are stated over `ℚ` (or kept polymorphic over a
  linear ordered field); the components that take a square root
  (`l2_normalize` and the cluster-merge renormalization) are modelled over
  `ℝ`, where the square root is exact.
* C++ `int` is modelled by `ℤ` (no overflow at the sizes involved), `size_t`
  indices by `ℕ`.
* `std::vector<float>` is a `List`; `std::unordered_map<std::string,
  SpeakerProfile>` is an association list with insert-or-assign semantics
  (iteration order of the C++ map is unspecified; the claims proved here
  either do not depend on it or quantify over the list order).
* The neural embedding extractor is an external collaborator; `enroll`,
  `identify` and `verify` are therefore modelled at the point after
  extraction, taking the extracted embedding as an argument.  An empty list
  models the extractor's failure convention (it returns an empty vector on
  failure and the callers treat emptiness as failure).
-/

namespace VP

/-! ### Error codes (src/utils/error_codes.h) -/

def OK : ℤ := 0
def INVALID_PARAM : ℤ := -2
def AUDIO_TOO_SHORT : ℤ := -6
def SPEAKER_NOT_FOUND : ℤ := -9
def DB_ERROR : ℤ := -10
def NO_MATCH : ℤ := -13
def INFERENCE : ℤ := -15

/-! ### Cosine similarity (src/core/similarity.cpp)

`cosine_similarity(const float*, const float*, int dim)` accumulates the dot
product of the first `dim` entries and clamps to `[-1, 1]` (the AVX2 and the
scalar paths compute the same sum); the `std::vector` overload first checks
`a.size() != b.size() || a.empty()` and returns `0` in that case, otherwise
delegates with `dim = a.size()`.  Out-of-range reads cannot occur through
the vector overload; `getD _ _ 0` below is exercised only with in-range
indices there. -/

variable {K : Type} [LinearOrderedField K]

def dotPrefix (a b : List K) (dim : ℕ) : K :=
  (List.range dim).foldl (fun acc i => acc + a.getD i 0 * b.getD i 0) 0

def cosine_similarity_dim (a b : List K) (dim : ℕ) : K :=
  max (-1) (min 1 (dotPrefix a b dim))

def cosine_similarity (a b : List K) : K :=
  if a.length ≠ b.length ∨ a.isEmpty then 0
  else cosine_similarity_dim a b a.length

/-! ### Cosine distance (src/core/clustering.h)

`cosine_dist` returns `1` on a size mismatch or empty input, otherwise
`1 - clamp(dot, -1, 1)` (the dot product is accumulated in `double`; both
accumulations are exact here). -/

def cosine_dist (a b : List K) : K :=
  if a.length ≠ b.length ∨ a.isEmpty then 1
  else 1 - max (-1) (min 1 (dotPrefix a b a.length))

/-! ### find_best_match (src/core/similarity.cpp)

`MatchResult best{-1, -1.0f, ""}` then a linear scan replacing `best`
whenever `score > best.score` (strict, so ties keep the first occurrence). -/

structure MatchResult (K : Type) where
  index : ℤ
  score : K
  speaker_id : String

def find_best_match (query : List K)
    (candidates : List (String × List K)) : MatchResult K :=
  candidates.enum.foldl
    (fun best ic =>
      let s := cosine_similarity query ic.2.2
      if best.score < s then ⟨ic.1, s, ic.2.1⟩ else best)
    ⟨-1, -1, ""⟩

/-! ### Theorems for claim C10 -/

/-- C10: `cosine_similarity` is total, its result always lies in `[-1, 1]`,
and on vectors of different lengths (or empty vectors) it returns `0` while
the clustering-side `cosine_dist` returns `1`; no out-of-bounds read is
involved in the model.  Stated over `ℚ`, which contains every float value. -/
theorem cosine_similarity_total (a b : List ℚ) :
    (-1 ≤ cosine_similarity a b ∧ cosine_similarity a b ≤ 1) ∧
    (a.length ≠ b.length ∨ a.isEmpty →
      cosine_similarity a b = 0 ∧ cosine_dist a b = 1) := by
  constructor
  · unfold cosine_similarity cosine_similarity_dim
    split
    · norm_num
    · exact ⟨le_max_left _ _, max_le (by norm_num) (min_le_left _ _)⟩
  · intro h
    unfold cosine_similarity cosine_dist
    rw [if_pos h, if_pos h]
    exact ⟨rfl, rfl⟩

/-- Witness for `cosine_similarity_total` at a concrete mismatched pair. -/
theorem cosine_similarity_total_witness :
    cosine_similarity [(1 : ℚ)] [] = 0 ∧ cosine_dist [(1 : ℚ)] [] = 1 :=
  (cosine_similarity_total [(1 : ℚ)] []).2 (Or.inl (by decide))

/-! ### Theorems for claim C8

The header comment above `find_best_match` documents "Returns (index, score)
pair, or (-1, 0) if empty", and the claim repeats this, but the
implementation initializes `best.score` to `-1.0f` and never overwrites it
on an empty candidate list, so the returned score is `-1`, not `0`. -/

/-- C8 failing input: on the empty candidate list `find_best_match` returns
index `-1` and the empty speaker id as claimed, but score `-1` instead of
the claimed (and header-documented) `0`. -/
theorem find_best_match_empty_score :
    (find_best_match [(1 : ℚ)] []).index = -1 ∧
    (find_best_match [(1 : ℚ)] []).speaker_id = "" ∧
    (find_best_match [(1 : ℚ)] []).score = -1 ∧
    (find_best_match [(1 : ℚ)] []).score ≠ 0 := by
  refine ⟨rfl, rfl, rfl, by norm_num [find_best_match]⟩

namespace Clustering

/-! ### Agglomerative clustering (src/core/clustering.h)

The merge loop needs `ℝ` because the merged mean is L2-renormalized with a
square root.  The C++ `while (true)` loop is modelled with fuel: every
iteration either returns (the `break` conditions) or deactivates one
cluster, so `N` units of fuel are never exhausted.  The initial
`best_dist = FLT_MAX` is modelled as `none`: every computed cosine distance
is at most `2 < FLT_MAX`, so the first active pair always replaces the
initial value, exactly as in the source. -/

structure ClusterResult where
  labels : List ℕ
  num_clusters : ℕ

structure AggState where
  labels : List ℕ
  means : List (List ℝ)
  counts : List ℤ
  active : List Bool
  num_active : ℕ

/-- Scan all active pairs `i < j` for the strictly smallest distance,
mirroring the double loop `for i { for j = i+1 }` with `d < best_dist`. -/
noncomputable def closestPair (means : List (List ℝ)) (active : List Bool) :
    Option (ℝ × ℕ × ℕ) :=
  let N := means.length
  (List.range N).foldl
    (fun best i =>
      if active.getD i false then
        (List.range' (i + 1) (N - (i + 1))).foldl
          (fun best j =>
            if active.getD j false then
              let d := cosine_dist (means.getD i []) (means.getD j [])
              match best with
              | none => some (d, i, j)
              | some b => if d < b.1 then some (d, i, j) else best
            else best)
          best
      else best)
    none

/-- Merge cluster `j` into cluster `i`: count-weighted mean, L2-renormalize
with the `norm > 1e-8` guard, deactivate `j`, relabel `j`-points to `i`. -/
noncomputable def mergeAt (st : AggState) (i j : ℕ) : AggState :=
  let ci := st.counts.getD i 0
  let cj := st.counts.getD j 0
  let total := ci + cj
  let m0 := (st.means.getD i []).zipWith
    (fun a b => (a * (ci : ℝ) + b * (cj : ℝ)) / (total : ℝ)) (st.means.getD j [])
  let norm := Real.sqrt (m0.map fun v => v * v).sum
  let m1 := if 1 / 10 ^ 8 < norm then m0.map (· / norm) else m0
  { labels := st.labels.map fun l => if l = j then i else l
    means := st.means.set i m1
    counts := st.counts.set i total
    active := st.active.set j false
    num_active := st.num_active - 1 }

/-- The `while (true)` merge loop with its two `break` conditions
(`best_i < 0 || (best_dist > threshold && !at_max)` and
`at_max && best_dist > threshold`). -/
noncomputable def aggLoop (threshold : ℝ) (max_clusters : ℤ) :
    ℕ → AggState → AggState
  | 0, st => st
  | fuel + 1, st =>
    match closestPair st.means st.active with
    | none => st
    | some (d, i, j) =>
      let at_max := 0 < max_clusters ∧ (st.num_active : ℤ) ≤ max_clusters
      if d > threshold ∧ ¬at_max then st
      else if at_max ∧ d > threshold then st
      else aggLoop threshold max_clusters fuel (mergeAt st i j)

/-- Compact labels to `0..K-1` in first-occurrence order (the `id_map`
array of the source, realised as an association list). -/
def compactGo : List ℕ → List (ℕ × ℕ) → ℕ → List ℕ × ℕ
  | [], _, next => ([], next)
  | l :: ls, m, next =>
    match m.find? (fun p => p.1 = l) with
    | some p =>
      let r := compactGo ls m next
      (p.2 :: r.1, r.2)
    | none =>
      let r := compactGo ls ((l, next) :: m) (next + 1)
      (next :: r.1, r.2)

noncomputable def agglomerative_cluster (embeddings : List (List ℝ))
    (threshold : ℝ) (max_clusters : ℤ) : ClusterResult :=
  let N := embeddings.length
  if N = 0 then ⟨[], 0⟩
  else if N = 1 then ⟨[0], 1⟩
  else
    let st := aggLoop threshold max_clusters N
      { labels := List.range N
        means := embeddings
        counts := List.replicate N 1
        active := List.replicate N true
        num_active := N }
    let c := compactGo st.labels [] 0
    ⟨c.1, c.2⟩

/-! ### Theorem for claim C3

The claim (and the source's own doc comment "Hard cap on cluster count
(0 = unlimited)", and its unit test `MaxClustersConstraint`) says the loop
merges whenever `d* ≤ threshold` *or* the active count exceeds
`max_clusters`.  In the code, however, both `break` conditions together
fire whenever `best_dist > threshold`, regardless of `at_max`, so the cap
never forces a merge. -/

/-- C3 failing input: two mutually-orthogonal unit vectors, threshold
`0.45`, `max_clusters = 1`.  The claim requires exactly `1` cluster; the
code performs no merge and returns `2` clusters. -/
theorem agglomerative_cluster_ignores_max_clusters :
    (agglomerative_cluster [[(1 : ℝ), 0], [0, 1]] (45 / 100) 1).num_clusters = 2 ∧
    (agglomerative_cluster [[(1 : ℝ), 0], [0, 1]] (45 / 100) 1).labels = [0, 1] ∧
    (2 : ℕ) ≠ 1 := by
  have hdot : dotPrefix [(1 : ℝ), 0] [0, 1] 2 = 0 := by
    simp [dotPrefix, List.range_succ]
  have hd : cosine_dist [(1 : ℝ), 0] [0, 1] = 1 := by
    norm_num [cosine_dist, hdot]
  have hcp : closestPair [[(1 : ℝ), 0], [0, 1]] [true, true] = some (1, 0, 1) := by
    simp [closestPair, List.range_succ, List.range', hd]
  have hst : aggLoop (9 / 20) 1 2
      { labels := List.range 2
        means := [[(1 : ℝ), 0], [0, 1]]
        counts := List.replicate 2 1
        active := List.replicate 2 true
        num_active := 2 } =
      { labels := List.range 2
        means := [[(1 : ℝ), 0], [0, 1]]
        counts := List.replicate 2 1
        active := List.replicate 2 true
        num_active := 2 } := by
    show aggLoop (9 / 20) 1 (1 + 1)
        { labels := List.range 2
          means := [[(1 : ℝ), 0], [0, 1]]
          counts := List.replicate 2 1
          active := [true, true]
          num_active := 2 } = _
    rw [aggLoop]
    norm_num [hcp, List.replicate_succ]
  have hres : agglomerative_cluster [[(1 : ℝ), 0], [0, 1]] (45 / 100) 1 =
      ⟨[0, 1], 2⟩ := by
    rw [agglomerative_cluster]
    norm_num [hst]
    exact ⟨by decide, by decide⟩
  rw [hres]
  exact ⟨rfl, rfl, by norm_num⟩

end Clustering

/-! ### Linear resampler (src/core/audio_processor.cpp, AudioProcessor::resample)

`resample` returns the input unchanged when the rates agree; otherwise it
computes `ratio = dst/src` in `double`, allocates `ceil(size * ratio)`
output samples, and fills each by linear interpolation (`resampleSample`
is the loop body).  `size_t idx = static_cast<size_t>(src_pos)` truncates
toward zero, which equals the floor for the non-negative positions arising
from positive rates; the `size_t` comparisons are modelled over `ℤ` and
coincide there.  Exact rational arithmetic replaces `double`. -/

def resampleSample (input : List ℚ) (q : ℚ) (i : ℕ) : ℚ :=
  let src_pos : ℚ := (i : ℚ) / q
  let idx : ℤ := ⌊src_pos⌋
  let frac : ℚ := src_pos - (idx : ℚ)
  if idx + 1 < (input.length : ℤ) then
    input.getD idx.toNat 0 * (1 - frac) + input.getD (idx + 1).toNat 0 * frac
  else if idx < (input.length : ℤ) then input.getD idx.toNat 0
  else 0

def resample (input : List ℚ) (src_rate dst_rate : ℤ) : List ℚ :=
  if src_rate = dst_rate then input
  else
    (List.range (⌈(input.length : ℚ) * ((dst_rate : ℚ) / (src_rate : ℚ))⌉).toNat).map
      (resampleSample input ((dst_rate : ℚ) / (src_rate : ℚ)))

theorem getD_map_range {α : Type} (n : ℕ) (f : ℕ → α) (d : α) (i : ℕ)
    (hi : i < n) : ((List.range n).map f).getD i d = f i := by
  rw [List.getD_eq_getElem?_getD, List.getElem?_map, List.getElem?_range hi]
  rfl

/-- C7: `resample` is the identity when the rates agree; otherwise the
output has exactly `⌈len·ratio⌉` samples and each output sample is the
linear interpolation `x[idx]·(1−frac) + x[idx+1]·frac` at
`idx = ⌊i/ratio⌋`, falling back to the last input sample `x[len−1]` when
`idx+1` runs past the end (the in-range bounds `0 ≤ idx < len` are part of
the statement, so no out-of-bounds access occurs). -/
theorem resample_spec (x : List ℚ) (src dst : ℤ)
    (hs : 0 < src) (hd : 0 < dst) :
    (src = dst → resample x src dst = x) ∧
    (src ≠ dst →
      (resample x src dst).length =
        (⌈(x.length : ℚ) * ((dst : ℚ) / (src : ℚ))⌉).toNat ∧
      ∀ i : ℕ, i < (⌈(x.length : ℚ) * ((dst : ℚ) / (src : ℚ))⌉).toNat →
        0 ≤ ⌊(i : ℚ) / ((dst : ℚ) / (src : ℚ))⌋ ∧
        ⌊(i : ℚ) / ((dst : ℚ) / (src : ℚ))⌋ < (x.length : ℤ) ∧
        (resample x src dst).getD i 0 =
          (if ⌊(i : ℚ) / ((dst : ℚ) / (src : ℚ))⌋ + 1 < (x.length : ℤ) then
            x.getD (⌊(i : ℚ) / ((dst : ℚ) / (src : ℚ))⌋).toNat 0 *
                (1 - ((i : ℚ) / ((dst : ℚ) / (src : ℚ)) -
                  (⌊(i : ℚ) / ((dst : ℚ) / (src : ℚ))⌋ : ℚ))) +
              x.getD (⌊(i : ℚ) / ((dst : ℚ) / (src : ℚ))⌋ + 1).toNat 0 *
                ((i : ℚ) / ((dst : ℚ) / (src : ℚ)) -
                  (⌊(i : ℚ) / ((dst : ℚ) / (src : ℚ))⌋ : ℚ))
          else x.getD (x.length - 1) 0)) := by
  have hq : (0 : ℚ) < (dst : ℚ) / (src : ℚ) := by
    apply div_pos <;> exact_mod_cast ‹_›
  constructor
  · intro h
    rw [resample, if_pos h]
  · intro h
    have hne : resample x src dst =
        (List.range
          (⌈(x.length : ℚ) * ((dst : ℚ) / (src : ℚ))⌉).toNat).map
          (resampleSample x ((dst : ℚ) / (src : ℚ))) := by
      rw [resample, if_neg h]
    refine ⟨by rw [hne]; simp, ?_⟩
    intro i hi
    set q : ℚ := (dst : ℚ) / (src : ℚ) with hqdef
    have hpos : (0 : ℚ) ≤ (i : ℚ) / q := by positivity
    have hfl0 : 0 ≤ ⌊(i : ℚ) / q⌋ := Int.floor_nonneg.mpr hpos
    have hiz : (i : ℤ) < ⌈(x.length : ℚ) * q⌉ := Int.lt_toNat.mp hi
    have h1q : ((i : ℚ) + 1) ≤ (⌈(x.length : ℚ) * q⌉ : ℚ) := by
      exact_mod_cast hiz
    have h2 := Int.ceil_lt_add_one ((x.length : ℚ) * q)
    have hlt : (i : ℚ) < (x.length : ℚ) * q := by linarith
    have hflt : ⌊(i : ℚ) / q⌋ < (x.length : ℤ) := by
      apply Int.floor_lt.mpr
      push_cast
      rw [div_lt_iff₀ hq]
      exact hlt
    refine ⟨hfl0, hflt, ?_⟩
    rw [hne, getD_map_range _ _ _ _ hi]
    simp only [resampleSample]
    by_cases hc : ⌊(i : ℚ) / q⌋ + 1 < (x.length : ℤ)
    · rw [if_pos hc, if_pos hc]
    · rw [if_neg hc, if_neg hc, if_pos hflt]
      congr 1
      omega

/-- Witness for `resample_spec` with concrete positive rates. -/
theorem resample_spec_witness :
    ((8000 : ℤ) = 16000 → resample [0, 0] 8000 16000 = [0, 0]) ∧
    ((8000 : ℤ) ≠ 16000 →
      (resample [0, 0] 8000 16000).length =
        (⌈(([(0 : ℚ), 0]).length : ℚ) * ((16000 : ℚ) / (8000 : ℚ))⌉).toNat ∧
      ∀ i : ℕ,
        i < (⌈(([(0 : ℚ), 0]).length : ℚ) * ((16000 : ℚ) / (8000 : ℚ))⌉).toNat →
        0 ≤ ⌊(i : ℚ) / ((16000 : ℚ) / (8000 : ℚ))⌋ ∧
        ⌊(i : ℚ) / ((16000 : ℚ) / (8000 : ℚ))⌋ < (([(0 : ℚ), 0]).length : ℤ) ∧
        (resample [0, 0] 8000 16000).getD i 0 =
          (if ⌊(i : ℚ) / ((16000 : ℚ) / (8000 : ℚ))⌋ + 1 <
              (([(0 : ℚ), 0]).length : ℤ) then
            ([(0 : ℚ), 0]).getD (⌊(i : ℚ) / ((16000 : ℚ) / (8000 : ℚ))⌋).toNat 0 *
                (1 - ((i : ℚ) / ((16000 : ℚ) / (8000 : ℚ)) -
                  (⌊(i : ℚ) / ((16000 : ℚ) / (8000 : ℚ))⌋ : ℚ))) +
              ([(0 : ℚ), 0]).getD
                  (⌊(i : ℚ) / ((16000 : ℚ) / (8000 : ℚ))⌋ + 1).toNat 0 *
                ((i : ℚ) / ((16000 : ℚ) / (8000 : ℚ)) -
                  (⌊(i : ℚ) / ((16000 : ℚ) / (8000 : ℚ))⌋ : ℚ))
          else ([(0 : ℚ), 0]).getD (([(0 : ℚ), 0]).length - 1) 0)) :=
  resample_spec [0, 0] 8000 16000 (by norm_num) (by norm_num)

/-! ### Voice state rules (src/core/voice_analyzer.cpp, analyze_voice_state)

Only the fields that `analyze_voice_state` reads are modelled.  The level
constants are the `VP_FATIGUE_*` / `VP_HEALTH_*` / `VP_STRESS_*` integer
defines of voiceprint_types.h.  `clamp(v, lo, hi)` is the source's ternary
chain `v < lo ? lo : (v > hi ? hi : v)`.  The C++ condition
`emo && emo->arousal > 0.5f` is the boolean `arousalAbove` below. -/

def VP_FATIGUE_NORMAL : ℤ := 0
def VP_FATIGUE_MODERATE : ℤ := 1
def VP_FATIGUE_HIGH : ℤ := 2
def VP_HEALTH_NORMAL : ℤ := 0
def VP_HEALTH_HOARSE : ℤ := 1
def VP_HEALTH_NASAL : ℤ := 2
def VP_HEALTH_BREATHY : ℤ := 3
def VP_STRESS_LOW : ℤ := 0
def VP_STRESS_MEDIUM : ℤ := 1
def VP_STRESS_HIGH : ℤ := 2

def clamp (v lo hi : ℚ) : ℚ := if v < lo then lo else if v > hi then hi else v

structure VpQualityResult where
  hnr_db : ℚ

structure VpVoiceFeatures where
  pitch_hz : ℚ
  pitch_variability : ℚ
  speaking_rate : ℚ
  voice_stability : ℚ
  resonance_score : ℚ
  breathiness : ℚ
  energy_mean : ℚ
  energy_variability : ℚ

structure VpEmotionResult where
  arousal : ℚ

structure VpVoiceState where
  fatigue_score : ℚ
  fatigue_level : ℤ
  health_state : ℤ
  health_score : ℚ
  stress_score : ℚ
  stress_level : ℤ

/-- The C++ null-check-and-compare `emo && emo->arousal > 0.5f`. -/
def arousalAbove (emo : Option VpEmotionResult) : Bool :=
  match emo with
  | some e => decide (e.arousal > 5 / 10)
  | none => false

/-- Direct translation of `VoiceAnalyzer::analyze_voice_state`'s output
fields (the function also returns `VP_OK`, which carries no information
here).  The `+=` accumulations are written as nested sums in program
order; the levels are computed from the unclamped accumulators, as in the
source. -/
def analyze_voice_state (q : VpQualityResult) (vf : VpVoiceFeatures)
    (emo : Option VpEmotionResult) : VpVoiceState :=
  let fatigue : ℚ :=
    (((0 + (if 0 < vf.pitch_hz ∧ vf.pitch_hz < 100 then 25 / 100 else 0)) +
        (if vf.speaking_rate < 25 / 10 then 25 / 100 else 0)) +
      (if vf.energy_mean < 2 / 100 then 25 / 100 else 0)) +
        (if vf.voice_stability < 4 / 10 then 25 / 100 else 0)
  let health_state : ℤ :=
    if vf.breathiness > 7 / 10 ∧ q.hnr_db < 5 then VP_HEALTH_HOARSE
    else if vf.breathiness > 65 / 100 then VP_HEALTH_BREATHY
    else if vf.resonance_score > 75 / 100 ∧ vf.pitch_variability < 20 then
      VP_HEALTH_NASAL
    else VP_HEALTH_NORMAL
  let stress : ℚ :=
    (((0 + (if vf.pitch_hz > 220 ∧ vf.pitch_variability > 40 then 3 / 10 else 0)) +
        (if vf.speaking_rate > 6 then 25 / 100 else 0)) +
      (if arousalAbove emo then 25 / 100 else 0)) +
        (if vf.energy_variability > 1 / 10 then 2 / 10 else 0)
  { fatigue_score := clamp fatigue 0 1
    fatigue_level :=
      if fatigue > 7 / 10 then VP_FATIGUE_HIGH
      else if fatigue > 35 / 100 then VP_FATIGUE_MODERATE
      else VP_FATIGUE_NORMAL
    health_state := health_state
    health_score :=
      clamp (5 / 10 * (1 - vf.breathiness) +
        5 / 10 * clamp ((q.hnr_db + 5) / 30) 0 1) 0 1
    stress_score := clamp stress 0 1
    stress_level :=
      if stress > 65 / 100 then VP_STRESS_HIGH
      else if stress > 3 / 10 then VP_STRESS_MEDIUM
      else VP_STRESS_LOW }

/-- Modelled from the spec (§4.9): the claimed stress score, whose third
term fires on `|arousal| > 0.5` rather than the code's signed
`arousal > 0.5`. -/
def claimedStressScore (vf : VpVoiceFeatures)
    (emo : Option VpEmotionResult) : ℚ :=
  (if vf.pitch_hz > 220 ∧ vf.pitch_variability > 40 then 3 / 10 else 0) +
  (if vf.speaking_rate > 6 then 25 / 100 else 0) +
  (if (match emo with
      | some e => decide (|e.arousal| > 5 / 10)
      | none => false) then 25 / 100 else 0) +
  (if vf.energy_variability > 1 / 10 then 2 / 10 else 0)

/-! ### Theorems for claim C9 -/

/-- C9 counterexample: with arousal `-0.8` (and no other stress source),
the claim's `|arousal| > 0.5` adds `0.25`, but the code tests the signed
`arousal > 0.5` and adds nothing, so the stress score is `0`, not the
claimed `0.25`. -/
theorem analyze_voice_state_arousal_signed :
    (analyze_voice_state ⟨15⟩ ⟨120, 10, 5, 1 / 2, 1 / 2, 1 / 2, 1 / 10, 1 / 100⟩
        (some ⟨-(8 / 10)⟩)).stress_score = 0 ∧
    claimedStressScore ⟨120, 10, 5, 1 / 2, 1 / 2, 1 / 2, 1 / 10, 1 / 100⟩
        (some ⟨-(8 / 10)⟩) = 25 / 100 ∧
    (analyze_voice_state ⟨15⟩ ⟨120, 10, 5, 1 / 2, 1 / 2, 1 / 2, 1 / 10, 1 / 100⟩
        (some ⟨-(8 / 10)⟩)).stress_score ≠
      claimedStressScore ⟨120, 10, 5, 1 / 2, 1 / 2, 1 / 2, 1 / 10, 1 / 100⟩
        (some ⟨-(8 / 10)⟩) := by
  have habs : |((4 : ℚ) / 5)| = 4 / 5 := abs_of_nonneg (by norm_num)
  refine ⟨?_, ?_, ?_⟩ <;>
    norm_num [analyze_voice_state, claimedStressScore, arousalAbove, clamp, habs]


theorem analyze_voice_state_stress_score_eq (q : VpQualityResult)
    (vf : VpVoiceFeatures) (emo : Option VpEmotionResult) :
    (analyze_voice_state q vf emo).stress_score =
      clamp ((((0 +
        (if vf.pitch_hz > 220 ∧ vf.pitch_variability > 40 then 3 / 10 else 0)) +
        (if vf.speaking_rate > 6 then 25 / 100 else 0)) +
        (if arousalAbove emo then 25 / 100 else 0)) +
        (if vf.energy_variability > 1 / 10 then 2 / 10 else 0)) 0 1 := rfl

theorem analyze_voice_state_stress_level_eq (q : VpQualityResult)
    (vf : VpVoiceFeatures) (emo : Option VpEmotionResult) :
    (analyze_voice_state q vf emo).stress_level =
      (if ((((0 : ℚ) +
        (if vf.pitch_hz > 220 ∧ vf.pitch_variability > 40 then 3 / 10 else 0)) +
        (if vf.speaking_rate > 6 then 25 / 100 else 0)) +
        (if arousalAbove emo then 25 / 100 else 0)) +
        (if vf.energy_variability > 1 / 10 then 2 / 10 else 0) > 65 / 100
        then VP_STRESS_HIGH
      else if ((((0 : ℚ) +
        (if vf.pitch_hz > 220 ∧ vf.pitch_variability > 40 then 3 / 10 else 0)) +
        (if vf.speaking_rate > 6 then 25 / 100 else 0)) +
        (if arousalAbove emo then 25 / 100 else 0)) +
        (if vf.energy_variability > 1 / 10 then 2 / 10 else 0) > 3 / 10
        then VP_STRESS_MEDIUM
      else VP_STRESS_LOW) := rfl

/-- C9 amended: the stress score is the sum of `0.3` for high F0 with high
variability, `0.25` for fast speaking rate, `0.25` for *signed* arousal
above `0.5` when an emotion result is present, and `0.2` for high energy
variability; the level is high above `0.65`, medium above `0.30`, low
otherwise.  (The only change from the claim is `arousal > 0.5` in place of
`|arousal| > 0.5`.) -/
theorem analyze_voice_state_stress_spec (q : VpQualityResult)
    (vf : VpVoiceFeatures) (emo : Option VpEmotionResult) :
    (analyze_voice_state q vf emo).stress_score =
      (if vf.pitch_hz > 220 ∧ vf.pitch_variability > 40 then 3 / 10 else 0) +
      (if vf.speaking_rate > 6 then 25 / 100 else 0) +
      (if arousalAbove emo then 25 / 100 else 0) +
      (if vf.energy_variability > 1 / 10 then 2 / 10 else 0) ∧
    (analyze_voice_state q vf emo).stress_level =
      (if (analyze_voice_state q vf emo).stress_score > 65 / 100 then
        VP_STRESS_HIGH
      else if (analyze_voice_state q vf emo).stress_score > 3 / 10 then
        VP_STRESS_MEDIUM
      else VP_STRESS_LOW) := by
  rw [analyze_voice_state_stress_score_eq, analyze_voice_state_stress_level_eq]
  set A : ℚ :=
    if vf.pitch_hz > 220 ∧ vf.pitch_variability > 40 then 3 / 10 else 0 with hA
  set B : ℚ := if vf.speaking_rate > 6 then 25 / 100 else 0 with hB
  set C : ℚ := if arousalAbove emo then 25 / 100 else 0 with hC
  set D : ℚ := if vf.energy_variability > 1 / 10 then 2 / 10 else 0 with hD
  have hA2 : 0 ≤ A ∧ A ≤ 3 / 10 := by rw [hA]; split <;> norm_num
  have hB2 : 0 ≤ B ∧ B ≤ 25 / 100 := by rw [hB]; split <;> norm_num
  have hC2 : 0 ≤ C ∧ C ≤ 25 / 100 := by rw [hC]; split <;> norm_num
  have hD2 : 0 ≤ D ∧ D ≤ 2 / 10 := by rw [hD]; split <;> norm_num
  obtain ⟨hA0, hA1⟩ := hA2
  obtain ⟨hB0, hB1⟩ := hB2
  obtain ⟨hC0, hC1⟩ := hC2
  obtain ⟨hD0, hD1⟩ := hD2
  rw [clamp, if_neg (by linarith), if_neg (by linarith)]
  exact ⟨by ring, rfl⟩

/-! ### Speaker manager (src/manager/speaker_manager.cpp)

The in-memory `std::unordered_map<std::string, SpeakerProfile>` cache is an
association list; `cacheAssign` is `cache_[id] = profile` (replace the
existing entry or insert a new one), `cacheFind` is `cache_.find`,
`List.eraseP` is `cache_.erase(it)`.  The `initialized_` and null-buffer
guards precede everything modelled here and leave the state unchanged; they
are assumed to pass.  The extractor is abstracted: each operation takes the
extracted embedding, and an empty list models extraction failure (in the
source the failure is mapped to `AUDIO_TOO_SHORT` / `AUDIO_INVALID` /
`INFERENCE` depending on the error message, always without mutating state;
the model uses `INFERENCE` for this family, and no claim distinguishes
them).  The sqlite writes performed under the lock are assumed to succeed
(`save_speaker` / `remove_speaker` return `true`). -/

structure SpeakerProfile where
  speaker_id : String
  embedding : List ℝ
  enroll_count : ℤ

/-- `SpeakerManager::l2_normalize` with its `norm > 1e-10f` guard. -/
noncomputable def l2_normalize (v : List ℝ) : List ℝ :=
  let norm := Real.sqrt (v.map fun x => x * x).sum
  if 1 / 10 ^ 10 < norm then v.map (· / norm) else v

/-- `SpeakerManager::incremental_update`: `ē' = (ē·n + e)/(n+1)`
componentwise over the profile's embedding, bump the count, then
L2-renormalize.  (The C++ loop runs over the profile's indices and reads
`new_embedding[i]`; `zipWith` matches it whenever the new embedding is at
least as long, which holds for every fixed-dimension extractor.) -/
noncomputable def incremental_update (p : SpeakerProfile) (e : List ℝ) :
    SpeakerProfile :=
  { speaker_id := p.speaker_id
    embedding := l2_normalize (p.embedding.zipWith
      (fun a b =>
        (a * (p.enroll_count : ℝ) + b) / ((p.enroll_count : ℝ) + 1)) e)
    enroll_count := p.enroll_count + 1 }

abbrev Cache := List (String × SpeakerProfile)

def cacheFind (c : Cache) (id : String) : Option SpeakerProfile :=
  (c.find? fun kv => kv.1 = id).map fun kv => kv.2

def cacheAssign (c : Cache) (id : String) (p : SpeakerProfile) : Cache :=
  if (c.find? fun kv => kv.1 = id).isSome then
    c.map fun kv => if kv.1 = id then (id, p) else kv
  else c ++ [(id, p)]

/-- `SpeakerManager::enroll` after embedding extraction: returns the error
code and the new cache. -/
noncomputable def enroll (c : Cache) (speaker_id : String) (ext : List ℝ) :
    ℤ × Cache :=
  if speaker_id = "" then (INVALID_PARAM, c)
  else if ext.isEmpty then (INFERENCE, c)
  else
    match cacheFind c speaker_id with
    | some p => (OK, cacheAssign c speaker_id (incremental_update p ext))
    | none => (OK, cacheAssign c speaker_id ⟨speaker_id, ext, 1⟩)

/-- `SpeakerManager::remove_speaker`: erase from the cache, then from the
store (assumed to succeed, see the section comment). -/
def remove_speaker (c : Cache) (speaker_id : String) : ℤ × Cache :=
  match cacheFind c speaker_id with
  | none => (SPEAKER_NOT_FOUND, c)
  | some _ => (OK, c.eraseP fun kv => kv.1 = speaker_id)

/-- `SpeakerManager::verify`: cache lookup happens before extraction, so a
missing speaker short-circuits; on success the score is the cosine
similarity of the query embedding against the stored one. -/
noncomputable def verify (c : Cache) (speaker_id : String) (ext : List ℝ) :
    ℤ × Option ℝ :=
  match cacheFind c speaker_id with
  | none => (SPEAKER_NOT_FOUND, none)
  | some p =>
    if ext.isEmpty then (INFERENCE, none)
    else (OK, some (cosine_similarity ext p.embedding))

def get_speaker_count (c : Cache) : ℤ := c.length

/-- The scan of `SpeakerManager::identify`: fold over the cache starting
from `best_id = ""`, `best_score = -1.0f`, replacing on a strictly higher
score; the pointer overload of `cosine_similarity` is called with
`dim = embedding.size()` of the query. -/
noncomputable def identifyBest (ext : List ℝ) (c : Cache) : String × ℝ :=
  c.foldl
    (fun b kv =>
      let score := cosine_similarity_dim ext kv.2.embedding ext.length
      if b.2 < score then (kv.1, score) else b)
    ("", -1)

/-- `SpeakerManager::identify` after embedding extraction.  `out_speaker_id`
and `out_score` are the caller's output parameters (passed by reference in
C++), so the returned triple carries their final values: `out_score` is
always overwritten with the best score, while `out_speaker_id` is written
only on the `OK` path. -/
noncomputable def identify (c : Cache) (ext : List ℝ) (threshold : ℝ)
    (out_speaker_id : String) (out_score : ℝ) : ℤ × String × ℝ :=
  if ext.isEmpty then (INFERENCE, out_speaker_id, out_score)
  else
    let best := identifyBest ext c
    if best.2 ≥ threshold then (OK, best.1, best.2)
    else (NO_MATCH, out_speaker_id, best.2)

/-- Enroll a sequence of extracted embeddings for one id (the cache after
`n` successive `enroll` calls). -/
noncomputable def enrollList (c : Cache) (id : String)
    (es : List (List ℝ)) : Cache :=
  es.foldl (fun c e => (enroll c id e).2) c

/-- Modelled from the spec (§3, §4.7): the arithmetic mean of a list of
embeddings, read componentwise over the dimension of the first one. -/
noncomputable def meanList (l : List (List ℝ)) : List ℝ :=
  match l with
  | [] => []
  | v :: _ =>
    (List.range v.length).map fun i =>
      ((l.map fun u => u.getD i 0).sum) / (l.length : ℝ)

/-! #### Cache lemmas -/

theorem cacheFind_assign_self (c : Cache) (id : String) (p : SpeakerProfile) :
    cacheFind (cacheAssign c id p) id = some p := by
  rw [cacheAssign]
  split
  · rename_i hsome
    have key : ∀ l : Cache,
        (l.find? fun kv => kv.1 = id).isSome = true →
        (l.map fun kv => if kv.1 = id then (id, p) else kv).find?
          (fun kv => kv.1 = id) = some (id, p) := by
      intro l
      induction l with
      | nil => intro h; simp at h
      | cons kv tl ih =>
        intro h
        by_cases hk : kv.1 = id
        · simp [hk]
        · rw [List.map_cons, if_neg hk,
            List.find?_cons_of_neg _ (by simp [hk])]
          apply ih
          rw [List.find?_cons_of_neg _ (by simp [hk])] at h
          exact h
    rw [cacheFind, key c hsome]
    rfl
  · rename_i hnone
    have hfn : c.find? (fun kv => kv.1 = id) = none := by
      cases h : c.find? fun kv => kv.1 = id with
      | none => rfl
      | some kv => rw [h] at hnone; simp at hnone
    rw [cacheFind, List.find?_append, hfn]
    simp

theorem cacheFind_eq_none_iff (c : Cache) (id : String) :
    cacheFind c id = none ↔ (c.find? fun kv => kv.1 = id) = none := by
  rw [cacheFind]
  cases h : c.find? fun kv => kv.1 = id <;> simp

theorem enroll_found (c : Cache) (id : String) (p : SpeakerProfile)
    (e : List ℝ) (hid : id ≠ "") (he : e ≠ [])
    (hfind : cacheFind c id = some p) :
    enroll c id e = (OK, cacheAssign c id (incremental_update p e)) := by
  rw [enroll, if_neg hid, if_neg (by simpa using he), hfind]

theorem enroll_new (c : Cache) (id : String) (e : List ℝ)
    (hid : id ≠ "") (he : e ≠ []) (hfind : cacheFind c id = none) :
    enroll c id e = (OK, cacheAssign c id ⟨id, e, 1⟩) := by
  rw [enroll, if_neg hid, if_neg (by simpa using he), hfind]

theorem enrollList_found (c : Cache) (id : String) (p : SpeakerProfile)
    (es : List (List ℝ)) (hid : id ≠ "") (hes : ∀ e ∈ es, e ≠ [])
    (hfind : cacheFind c id = some p) :
    cacheFind (enrollList c id es) id =
      some (es.foldl incremental_update p) := by
  induction es generalizing c p with
  | nil => simpa [enrollList]
  | cons e tl ih =>
    have he := hes e (by simp)
    rw [enrollList, List.foldl_cons, enroll_found c id p e hid he hfind]
    exact ih _ _ (fun x hx => hes x (by simp [hx]))
      (cacheFind_assign_self _ _ _)

theorem enrollList_profile (c : Cache) (id : String) (e1 : List ℝ)
    (rest : List (List ℝ)) (hid : id ≠ "") (h1 : e1 ≠ [])
    (hrest : ∀ e ∈ rest, e ≠ []) (habs : cacheFind c id = none) :
    cacheFind (enrollList c id (e1 :: rest)) id =
      some (rest.foldl incremental_update ⟨id, e1, 1⟩) := by
  rw [enrollList, List.foldl_cons, enroll_new c id e1 hid h1 habs]
  exact enrollList_found _ _ _ _ hid hrest (cacheFind_assign_self _ _ _)

theorem foldl_incremental_count (p : SpeakerProfile) (es : List (List ℝ)) :
    (es.foldl incremental_update p).enroll_count =
      p.enroll_count + es.length := by
  induction es generalizing p with
  | nil => simp
  | cons e tl ih =>
    rw [List.foldl_cons, ih]
    simp [incremental_update]
    ring

/-! ### Theorems for claim C5 -/

/-- C5 amended: when `id` is *not already enrolled*, `enroll(id, X)` (with a
successful extraction) followed by `remove(id)` succeeds, leaves `count()`
unchanged from its value before the enroll, and a subsequent `verify(id, …)`
returns `SpeakerNotFound`. -/
theorem enroll_remove_spec (c : Cache) (id : String) (ext ext2 : List ℝ)
    (hid : id ≠ "") (hext : ext ≠ []) (habs : cacheFind c id = none) :
    (enroll c id ext).1 = OK ∧
    (remove_speaker (enroll c id ext).2 id).1 = OK ∧
    get_speaker_count (remove_speaker (enroll c id ext).2 id).2 =
      get_speaker_count c ∧
    (verify (remove_speaker (enroll c id ext).2 id).2 id ext2).1 =
      SPEAKER_NOT_FOUND := by
  have hfn := (cacheFind_eq_none_iff c id).mp habs
  have hnc := List.find?_eq_none.mp hfn
  have hassign : cacheAssign c id ⟨id, ext, 1⟩ = c ++ [(id, ⟨id, ext, 1⟩)] := by
    rw [cacheAssign, if_neg]
    simp [hfn]
  have hfind2 : cacheFind (c ++ [(id, ⟨id, ext, 1⟩)]) id =
      some ⟨id, ext, 1⟩ := by
    rw [cacheFind, List.find?_append, hfn]
    simp
  have herase : (c ++ [(id, (⟨id, ext, 1⟩ : SpeakerProfile))]).eraseP
      (fun kv => kv.1 = id) = c := by
    rw [List.eraseP_append_right _ hnc]
    simp
  rw [enroll_new c id ext hid hext habs, hassign]
  refine ⟨rfl, ?_, ?_, ?_⟩
  · simp only [remove_speaker, hfind2]
  · simp only [remove_speaker, hfind2, herase]
  · simp only [remove_speaker, hfind2, herase, verify, habs]

/-- Witness for `enroll_remove_spec` on the empty store. -/
theorem enroll_remove_spec_witness :
    (enroll [] "a" [1]).1 = OK ∧
    (remove_speaker (enroll [] "a" [1]).2 "a").1 = OK ∧
    get_speaker_count (remove_speaker (enroll [] "a" [1]).2 "a").2 =
      get_speaker_count [] ∧
    (verify (remove_speaker (enroll [] "a" [1]).2 "a").2 "a" []).1 =
      SPEAKER_NOT_FOUND :=
  enroll_remove_spec [] "a" [1] [] (by simp) (by simp) rfl

/-- C5 counterexample: if `id` is already enrolled, `enroll(id, X)` updates
the existing profile (count stays 1) and `remove(id)` then drops the store
to 0 profiles, so `count()` is *not* unchanged from its pre-enroll value 1,
refuting the claim's quantification over every store state. -/
theorem enroll_remove_count_changes :
    (enroll [("a", ⟨"a", [1, 0], 1⟩)] "a" [1, 0]).1 = OK ∧
    (remove_speaker (enroll [("a", ⟨"a", [1, 0], 1⟩)] "a" [1, 0]).2 "a").1 =
      OK ∧
    get_speaker_count [("a", (⟨"a", [1, 0], 1⟩ : SpeakerProfile))] = 1 ∧
    get_speaker_count
      (remove_speaker (enroll [("a", ⟨"a", [1, 0], 1⟩)] "a" [1, 0]).2 "a").2 =
      0 := by
  have hf : cacheFind [("a", (⟨"a", [1, 0], 1⟩ : SpeakerProfile))] "a" =
      some ⟨"a", [1, 0], 1⟩ := by
    simp [cacheFind]
  rw [enroll_found _ "a" ⟨"a", [1, 0], 1⟩ [1, 0] (by simp) (by simp) hf]
  have hassign : cacheAssign [("a", (⟨"a", [1, 0], 1⟩ : SpeakerProfile))] "a"
      (incremental_update ⟨"a", [1, 0], 1⟩ [1, 0]) =
      [("a", incremental_update ⟨"a", [1, 0], 1⟩ [1, 0])] := by
    rw [cacheAssign]
    simp
  rw [hassign]
  have hf2 : cacheFind [("a", incremental_update ⟨"a", [1, 0], 1⟩ [1, 0])]
      "a" = some (incremental_update ⟨"a", [1, 0], 1⟩ [1, 0]) := by
    simp [cacheFind]
  refine ⟨rfl, ?_, rfl, ?_⟩
  · simp only [remove_speaker, hf2]
  · simp only [remove_speaker, hf2, List.eraseP]
    simp [get_speaker_count]

/-! ### Theorems for claim C2 -/

/-- The per-profile score of the identify loop (the loop-local `score`):
the pointer overload of `cosine_similarity` applied with the query's
dimension. -/
noncomputable def identScore (ext : List ℝ) (kv : String × SpeakerProfile) :
    ℝ :=
  cosine_similarity_dim ext kv.2.embedding ext.length

theorem identifyFold_snd (ext : List ℝ) (c : Cache) (b : String × ℝ) :
    (c.foldl (fun b kv =>
        if b.2 < identScore ext kv then (kv.1, identScore ext kv) else b)
      b).2 = (c.map (identScore ext)).foldl max b.2 := by
  induction c generalizing b with
  | nil => rfl
  | cons kv tl ih =>
    rw [List.foldl_cons, List.map_cons, List.foldl_cons, ih]
    congr 1
    split
    · exact (max_eq_right (le_of_lt (by assumption))).symm
    · exact (max_eq_left (not_lt.mp (by assumption))).symm

theorem identifyFold_attained (ext : List ℝ) (c : Cache) (b : String × ℝ) :
    (c.foldl (fun b kv =>
        if b.2 < identScore ext kv then (kv.1, identScore ext kv) else b)
      b) = b ∨
    ∃ kv ∈ c,
      (c.foldl (fun b kv =>
          if b.2 < identScore ext kv then (kv.1, identScore ext kv) else b)
        b) = (kv.1, identScore ext kv) := by
  induction c generalizing b with
  | nil => exact Or.inl rfl
  | cons kv tl ih =>
    rw [List.foldl_cons]
    rcases ih (if b.2 < identScore ext kv then (kv.1, identScore ext kv)
      else b) with h | ⟨kv2, hmem, heq⟩
    · rw [h]
      split
      · exact Or.inr ⟨kv, by simp, rfl⟩
      · exact Or.inl rfl
    · exact Or.inr ⟨kv2, by simp [hmem], heq⟩

theorem identifyBest_eq (ext : List ℝ) (c : Cache) :
    identifyBest ext c =
      c.foldl (fun b kv =>
        if b.2 < identScore ext kv then (kv.1, identScore ext kv) else b)
        ("", -1) := rfl

/-- C2 amended: on a successful extraction, `identify` always writes the
best score over all cached profiles to `out_score`; if that best score
reaches the threshold it returns `Ok` with `out_speaker_id` set to a
best-matching id, otherwise it returns `NoMatch` with `out_score` still
the best score but `out_speaker_id` left at the caller's previous value
(the code does not write the best id on the `NoMatch` path). -/
theorem identify_spec (c : Cache) (ext : List ℝ) (threshold : ℝ)
    (pid : String) (ps : ℝ) (hext : ext ≠ []) (hθ : 0 ≤ threshold) :
    ((identify c ext threshold pid ps).2.2 =
      (c.map (identScore ext)).foldl max (-1)) ∧
    ((c.map (identScore ext)).foldl max (-1) ≥ threshold →
      (identify c ext threshold pid ps).1 = OK ∧
      ∃ kv ∈ c, (identify c ext threshold pid ps).2.1 = kv.1 ∧
        identScore ext kv = (c.map (identScore ext)).foldl max (-1)) ∧
    ((c.map (identScore ext)).foldl max (-1) < threshold →
      (identify c ext threshold pid ps).1 = NO_MATCH ∧
      (identify c ext threshold pid ps).2.1 = pid) := by
  have hbody : identify c ext threshold pid ps =
      (if (identifyBest ext c).2 ≥ threshold then
        (OK, (identifyBest ext c).1, (identifyBest ext c).2)
      else (NO_MATCH, pid, (identifyBest ext c).2)) := by
    rw [identify, if_neg (by simpa using hext)]
  have hsnd : (identifyBest ext c).2 =
      (c.map (identScore ext)).foldl max (-1) := by
    rw [identifyBest_eq]
    exact identifyFold_snd ext c ("", -1)
  refine ⟨?_, ?_, ?_⟩
  · rw [hbody]
    split <;> simpa using hsnd
  · intro hge
    rw [hbody, if_pos (hsnd ▸ hge)]
    refine ⟨rfl, ?_⟩
    rcases identifyFold_attained ext c ("", -1) with h | ⟨kv, hmem, heq⟩
    · exfalso
      rw [identifyBest_eq] at hsnd
      rw [h] at hsnd
      have hm1 : (-1 : ℝ) = (c.map (identScore ext)).foldl max (-1) := hsnd
      rw [← hm1] at hge
      linarith
    · rw [identifyBest_eq] at hsnd ⊢
      refine ⟨kv, hmem, by rw [heq], ?_⟩
      rw [← hsnd, heq]
  · intro hlt
    rw [hbody, if_neg (by rw [hsnd]; exact not_le.mpr hlt)]
    exact ⟨rfl, rfl⟩

/-- Witness for `identify_spec` on the empty store. -/
theorem identify_spec_witness :
    ((identify [] [1] (3 / 10) "z" 0).2.2 =
      (([] : Cache).map (identScore [1])).foldl max (-1)) ∧
    ((([] : Cache).map (identScore [1])).foldl max (-1) ≥ 3 / 10 →
      (identify [] [1] (3 / 10) "z" 0).1 = OK ∧
      ∃ kv ∈ ([] : Cache), (identify [] [1] (3 / 10) "z" 0).2.1 = kv.1 ∧
        identScore [1] kv = (([] : Cache).map (identScore [1])).foldl max (-1)) ∧
    ((([] : Cache).map (identScore [1])).foldl max (-1) < 3 / 10 →
      (identify [] [1] (3 / 10) "z" 0).1 = NO_MATCH ∧
      (identify [] [1] (3 / 10) "z" 0).2.1 = "z") :=
  identify_spec [] [1] (3 / 10) "z" 0 (by simp) (by norm_num)

/-- C2 counterexample: one cached profile `"a"` scoring `0` against the
query (below the threshold `0.3`).  `identify` returns `NoMatch` with
`out_score = 0`, but `out_speaker_id` keeps the caller's prior value
`"z"`; the best-matching id `"a"` is *not* reported, refuting the claim
that the pair `(best_id, best_score)` is reported on the `NoMatch` path. -/
theorem identify_no_match_out_id :
    identify [("a", ⟨"a", [1, 0], 1⟩)] [0, 1] (3 / 10) "z" 5 =
      (NO_MATCH, "z", 0) ∧
    identifyBest [0, 1] [("a", ⟨"a", [1, 0], 1⟩)] = ("a", 0) ∧
    ("z" : String) ≠ "a" := by
  have hdot : dotPrefix [(0 : ℝ), 1] [1, 0] 2 = 0 := by
    norm_num [dotPrefix, List.range_succ]
  have hscore :
      identScore [(0 : ℝ), 1] ("a", ⟨"a", [1, 0], 1⟩) = 0 := by
    rw [identScore, cosine_similarity_dim]
    norm_num [hdot]
  have hbest : identifyBest [(0 : ℝ), 1] [("a", ⟨"a", [1, 0], 1⟩)] =
      ("a", 0) := by
    rw [identifyBest_eq, List.foldl_cons, List.foldl_nil, hscore]
    norm_num
  refine ⟨?_, hbest, by simp⟩
  rw [identify, if_neg (by simp), hbest]
  norm_num [NO_MATCH]

/-! ### Theorems for claim C1 -/

theorem map_getD_range_self (l : List ℝ) :
    ((List.range l.length).map fun i => l.getD i 0) = l := by
  apply List.ext_getElem (by simp)
  intro n h1 h2
  simp only [List.getElem_map, List.getElem_range]
  exact List.getD_eq_getElem l 0 h2

theorem l2_normalize_of_unit (v : List ℝ)
    (h : (v.map fun x => x * x).sum = 1) : l2_normalize v = v := by
  rw [l2_normalize, h, Real.sqrt_one, if_pos (by norm_num)]
  simp

/-- The pointwise equality between the first incremental update and the
arithmetic mean of the two contributed embeddings. -/
theorem zipWith_first_update_eq_mean (e1 e2 : List ℝ)
    (hlen : e2.length = e1.length) :
    e1.zipWith (fun a b => (a * ((1 : ℤ) : ℝ) + b) / (((1 : ℤ) : ℝ) + 1)) e2 =
      meanList [e1, e2] := by
  rcases e1 with _ | ⟨x, tl⟩
  · simp at hlen ⊢
    simp [meanList]
  · rw [meanList]
    apply List.ext_getElem
    · simp [hlen]
    · intro n h1 h2
      rw [List.getElem_zipWith, List.getElem_map, List.getElem_range]
      have hn1 : n < (x :: tl).length := by
        have := h1
        rw [List.length_zipWith, hlen] at this
        simpa using this
      have hn2 : n < e2.length := by rw [hlen]; exact hn1
      simp only [List.map_cons, List.map_nil, List.sum_cons, List.sum_nil,
        List.length_cons, List.length_nil]
      rw [List.getD_eq_getElem _ 0 hn1, List.getD_eq_getElem _ 0 hn2]
      push_cast
      ring

/-- C1 amended: after `n` successful enrolls the stored profile's
`enroll_count` is `n`; the stored embedding is the result of the
incremental recurrence `ē' = normalize((ē·n + e)/(n+1))`, which coincides
with the L2-normalization of the arithmetic mean of the contributed
embeddings for `n = 1` (unit-norm extractor output) and `n = 2`, but not
in general for `n ≥ 3` (see the counterexample). -/
theorem enroll_mean_invariant_upto_two (c : Cache) (id : String)
    (e1 e2 : List ℝ) (rest : List (List ℝ)) (hid : id ≠ "")
    (h1 : e1 ≠ []) (h2 : e2 ≠ []) (hrest : ∀ e ∈ rest, e ≠ [])
    (habs : cacheFind c id = none)
    (hunit : (e1.map fun x => x * x).sum = 1)
    (hlen : e2.length = e1.length) :
    (cacheFind (enrollList c id (e1 :: rest)) id).map
        (fun p => p.enroll_count) = some (1 + (rest.length : ℤ)) ∧
    (cacheFind (enrollList c id [e1]) id).map (fun p => p.embedding) =
      some (l2_normalize (meanList [e1])) ∧
    (cacheFind (enrollList c id [e1, e2]) id).map (fun p => p.embedding) =
      some (l2_normalize (meanList [e1, e2])) := by
  refine ⟨?_, ?_, ?_⟩
  · rw [enrollList_profile c id e1 rest hid h1 hrest habs]
    simp [foldl_incremental_count]
  · rw [enrollList_profile c id e1 [] hid h1 (by simp) habs]
    simp only [List.foldl_nil, Option.map_some]
    have hmean : meanList [e1] = e1 := by
      rcases e1 with _ | ⟨x, tl⟩
      · rfl
      · rw [meanList]
        simp only [List.map_cons, List.map_nil, List.sum_cons, List.sum_nil,
          List.length_cons, List.length_nil, add_zero]
        push_cast
        simp only [div_one]
        exact map_getD_range_self (x :: tl)
    rw [hmean, l2_normalize_of_unit e1 hunit]
    rfl
  · rw [enrollList_profile c id e1 [e2] hid h1 (by simpa using h2) habs]
    show some ((incremental_update ⟨id, e1, 1⟩ e2).embedding) =
      some (l2_normalize (meanList [e1, e2]))
    refine congrArg some ?_
    rw [show (incremental_update ⟨id, e1, 1⟩ e2).embedding =
      l2_normalize (e1.zipWith
        (fun a b => (a * ((1 : ℤ) : ℝ) + b) / (((1 : ℤ) : ℝ) + 1)) e2)
      from rfl]
    rw [zipWith_first_update_eq_mean e1 e2 hlen]

/-- Witness for `enroll_mean_invariant_upto_two` at two orthogonal unit
vectors on the empty store. -/
theorem enroll_mean_invariant_upto_two_witness :
    (cacheFind (enrollList [] "a" [[(1 : ℝ), 0], [1, 0]]) "a").map
        (fun p => p.enroll_count) = some (1 + (([[(1 : ℝ), 0]]).length : ℤ)) ∧
    (cacheFind (enrollList [] "a" [[(1 : ℝ), 0]]) "a").map
        (fun p => p.embedding) = some (l2_normalize (meanList [[(1 : ℝ), 0]])) ∧
    (cacheFind (enrollList [] "a" [[(1 : ℝ), 0], [0, 1]]) "a").map
        (fun p => p.embedding) =
      some (l2_normalize (meanList [[(1 : ℝ), 0], [0, 1]])) :=
  enroll_mean_invariant_upto_two [] "a" [1, 0] [0, 1] [[1, 0]]
    (by simp) (by simp) (by simp) (by simp) rfl (by norm_num) rfl

/-- The profile after the second enroll of the counterexample: the stored
embedding is `[√(1/2), √(1/2)]` with count `2`. -/
theorem incremental_update_step_one :
    incremental_update ⟨"a", [(1 : ℝ), 0], 1⟩ [0, 1] =
      ⟨"a", [Real.sqrt (1 / 2), Real.sqrt (1 / 2)], 2⟩ := by
  have hz1 : List.zipWith
      (fun a b => (a * ((1 : ℤ) : ℝ) + b) / (((1 : ℤ) : ℝ) + 1))
      [(1 : ℝ), 0] [0, 1] = [1 / 2, 1 / 2] := by
    norm_num
  have hs1 : (([(1 : ℝ) / 2, 1 / 2]).map fun x => x * x).sum = 1 / 2 := by
    norm_num
  have hg1 : (1 : ℝ) / 10 ^ 10 < Real.sqrt (1 / 2) := by
    apply (Real.lt_sqrt (by norm_num)).mpr
    norm_num
  have hn1 : l2_normalize [(1 : ℝ) / 2, 1 / 2] =
      [Real.sqrt (1 / 2), Real.sqrt (1 / 2)] := by
    rw [l2_normalize, hs1, if_pos hg1]
    rw [List.map_cons, List.map_cons, List.map_nil, Real.div_sqrt]
  show (⟨"a", l2_normalize (List.zipWith
      (fun a b => (a * ((1 : ℤ) : ℝ) + b) / (((1 : ℤ) : ℝ) + 1))
      [(1 : ℝ), 0] [0, 1]), (1 : ℤ) + 1⟩ : SpeakerProfile) = _
  rw [hz1, hn1]
  norm_num

theorem incremental_update_step_two_embedding :
    (incremental_update ⟨"a", [Real.sqrt (1 / 2), Real.sqrt (1 / 2)], 2⟩
        [1, 0]).embedding =
      [(Real.sqrt (1 / 2) * 2 + 1) / 3 /
          Real.sqrt ((4 * Real.sqrt (1 / 2) + 5) / 9),
        Real.sqrt (1 / 2) * 2 / 3 /
          Real.sqrt ((4 * Real.sqrt (1 / 2) + 5) / 9)] := by
  have hk0 : 0 < Real.sqrt (1 / 2) := Real.sqrt_pos.mpr (by norm_num)
  have hk2 : Real.sqrt (1 / 2) ^ 2 = 1 / 2 := Real.sq_sqrt (by norm_num)
  have hz2 : List.zipWith
      (fun a b => (a * ((2 : ℤ) : ℝ) + b) / (((2 : ℤ) : ℝ) + 1))
      [Real.sqrt (1 / 2), Real.sqrt (1 / 2)] [1, 0] =
      [(Real.sqrt (1 / 2) * 2 + 1) / 3, Real.sqrt (1 / 2) * 2 / 3] := by
    push_cast
    norm_num
  have hS : (([(Real.sqrt (1 / 2) * 2 + 1) / 3,
      Real.sqrt (1 / 2) * 2 / 3]).map fun x => x * x).sum =
      (4 * Real.sqrt (1 / 2) + 5) / 9 := by
    simp only [List.map_cons, List.map_nil, List.sum_cons, List.sum_nil]
    linear_combination (8 / 9) * hk2
  have hg2 : (1 : ℝ) / 10 ^ 10 <
      Real.sqrt ((4 * Real.sqrt (1 / 2) + 5) / 9) := by
    apply (Real.lt_sqrt (by norm_num)).mpr
    nlinarith
  show l2_normalize (List.zipWith
      (fun a b => (a * ((2 : ℤ) : ℝ) + b) / (((2 : ℤ) : ℝ) + 1))
      [Real.sqrt (1 / 2), Real.sqrt (1 / 2)] [1, 0]) = _
  rw [hz2, l2_normalize, hS, if_pos hg2, List.map_cons, List.map_cons,
    List.map_nil]

theorem meanList_three :
    meanList [[(1 : ℝ), 0], [0, 1], [1, 0]] = [2 / 3, 1 / 3] := by
  rw [meanList]
  norm_num [List.range_succ]

theorem l2_normalize_mean_three :
    l2_normalize [(2 : ℝ) / 3, 1 / 3] =
      [2 / 3 / Real.sqrt (5 / 9), 1 / 3 / Real.sqrt (5 / 9)] := by
  have hs : (([(2 : ℝ) / 3, 1 / 3]).map fun x => x * x).sum = 5 / 9 := by
    norm_num
  have hg : (1 : ℝ) / 10 ^ 10 < Real.sqrt (5 / 9) :=
    (Real.lt_sqrt (by norm_num)).mpr (by norm_num)
  rw [l2_normalize, hs, if_pos hg, List.map_cons, List.map_cons, List.map_nil]

/-- C1 counterexample: enrolling `"a"` three times with unit embeddings
`[1,0]`, `[0,1]`, `[1,0]` does *not* leave the stored embedding equal to
the L2-normalization of the arithmetic mean of the three: the intermediate
renormalization after the second enroll changes the direction of the
subsequent weighted sum. -/
theorem enroll_mean_invariant_fails_at_three :
    (cacheFind (enrollList [] "a" [[(1 : ℝ), 0], [0, 1], [1, 0]]) "a").map
        (fun p => p.embedding) ≠
      some (l2_normalize (meanList [[(1 : ℝ), 0], [0, 1], [1, 0]])) := by
  rw [enrollList_profile [] "a" [(1 : ℝ), 0] [[0, 1], [1, 0]]
    (by simp) (by simp) (by simp) rfl]
  rw [List.foldl_cons, List.foldl_cons, List.foldl_nil, incremental_update_step_one,
    meanList_three, l2_normalize_mean_three]
  intro hclaim
  have hemb : (incremental_update
      ⟨"a", [Real.sqrt (1 / 2), Real.sqrt (1 / 2)], 2⟩ [1, 0]).embedding =
      [2 / 3 / Real.sqrt (5 / 9), 1 / 3 / Real.sqrt (5 / 9)] :=
    Option.some.inj hclaim
  rw [incremental_update_step_two_embedding] at hemb
  injection hemb with h1 htl
  injection htl with h2 htl2
  have hk0 : 0 < Real.sqrt (1 / 2) := Real.sqrt_pos.mpr (by norm_num)
  have hk2 : Real.sqrt (1 / 2) ^ 2 = 1 / 2 := Real.sq_sqrt (by norm_num)
  have ht0 : (0 : ℝ) < Real.sqrt ((4 * Real.sqrt (1 / 2) + 5) / 9) :=
    Real.sqrt_pos.mpr (by nlinarith)
  have ht20 : (0 : ℝ) < Real.sqrt (5 / 9) := Real.sqrt_pos.mpr (by norm_num)
  have ht2 : (Real.sqrt ((4 * Real.sqrt (1 / 2) + 5) / 9)) ^ 2 =
      (4 * Real.sqrt (1 / 2) + 5) / 9 := Real.sq_sqrt (by nlinarith)
  have ht22 : (Real.sqrt ((5 : ℝ) / 9)) ^ 2 = 5 / 9 :=
    Real.sq_sqrt (by norm_num)
  have hcross : Real.sqrt (1 / 2) * 2 / 3 * Real.sqrt (5 / 9) =
      1 / 3 * Real.sqrt ((4 * Real.sqrt (1 / 2) + 5) / 9) :=
    (div_eq_div_iff (ne_of_gt ht0) (ne_of_gt ht20)).mp h2
  have hsq : (Real.sqrt (1 / 2) * 2 / 3 * Real.sqrt (5 / 9)) ^ 2 =
      (1 / 3 * Real.sqrt ((4 * Real.sqrt (1 / 2) + 5) / 9)) ^ 2 := by
    rw [hcross]
  rw [mul_pow, mul_pow, ht2, ht22] at hsq
  have hk54 : Real.sqrt (1 / 2) = 5 / 4 := by
    linear_combination (-81 / 4) * hsq + 5 * hk2
  rw [hk54] at hk2
  norm_num at hk2

/-! ### Loading rows at startup (src/storage/sqlite_store.cpp,
`SqliteStore::load_all_speakers`; src/manager/speaker_manager.cpp,
`SpeakerManager::load_cache_from_db`)

A row of the `speakers` table carries the id, the embedding BLOB (modelled
as its float32 values, `blob_size = 4 * blob.length` bytes), the declared
`embedding_dim`, and `enroll_count`.  `speaker_id` is the primary key, so
a table state has pairwise-distinct ids. -/

structure SpeakerRow where
  speaker_id : String
  blob : List ℝ
  embedding_dim : ℤ
  enroll_count : ℤ

/-- One iteration of `load_all_speakers`'s row loop:
`profile.embedding.resize(dim)` zero-fills `dim` floats, then
`memcpy(data, blob, blob_size)` copies the blob floats over the front.  No
comparison of `dim` against `blob_size / 4` is performed and no row is
skipped.  (When the blob holds more than `dim` floats the memcpy overruns
the resized buffer — undefined behavior in C++; the model keeps the `dim`
floats that fit, the only dim-sized reading of it.) -/
def loadRow (r : SpeakerRow) : SpeakerProfile :=
  { speaker_id := r.speaker_id
    embedding := (List.range r.embedding_dim.toNat).map fun i => r.blob.getD i 0
    enroll_count := r.enroll_count }

def load_all_speakers (rows : List SpeakerRow) : List SpeakerProfile :=
  rows.map loadRow

/-- `SpeakerManager::load_cache_from_db`: clear the cache, then insert every
loaded profile keyed by its id (`cache_[sp.speaker_id] = std::move(sp)`). -/
def load_cache_from_db (rows : List SpeakerRow) : Cache :=
  (load_all_speakers rows).foldl (fun c sp => cacheAssign c sp.speaker_id sp) []

theorem find?_map_assign_other (c : Cache) (pid : String)
    (p : SpeakerProfile) (id : String) (hne : pid ≠ id) :
    List.find? (fun kv => kv.1 = id)
        (c.map fun kv => if kv.1 = pid then (pid, p) else kv) =
      List.find? (fun kv => kv.1 = id) c := by
  induction c with
  | nil => rfl
  | cons kv tl ih =>
    by_cases hk : kv.1 = pid
    · rw [List.map_cons, if_pos hk,
        List.find?_cons_of_neg _ (by simp [hne]),
        List.find?_cons_of_neg _ (by simp [hk, hne]), ih]
    · rw [List.map_cons, if_neg hk]
      by_cases hi : kv.1 = id
      · rw [List.find?_cons_of_pos _ (by simp [hi]),
          List.find?_cons_of_pos _ (by simp [hi])]
      · rw [List.find?_cons_of_neg _ (by simp [hi]),
          List.find?_cons_of_neg _ (by simp [hi]), ih]

theorem cacheFind_assign_other (c : Cache) (pid : String)
    (p : SpeakerProfile) (id : String) (hne : pid ≠ id) :
    cacheFind (cacheAssign c pid p) id = cacheFind c id := by
  rw [cacheAssign]
  split
  · rw [cacheFind, cacheFind, find?_map_assign_other c pid p id hne]
  · rw [cacheFind, cacheFind, List.find?_append]
    have : List.find? (fun kv => kv.1 = id) [(pid, p)] = none := by
      simp [hne]
    rw [this]
    cases List.find? (fun kv => kv.1 = id) c <;> rfl

theorem foldAssign_preserves (ps : List SpeakerProfile) (c : Cache)
    (id : String) (h : ∀ p ∈ ps, p.speaker_id ≠ id) :
    cacheFind (ps.foldl (fun c sp => cacheAssign c sp.speaker_id sp) c) id =
      cacheFind c id := by
  induction ps generalizing c with
  | nil => rfl
  | cons q tl ih =>
    rw [List.foldl_cons, ih _ (fun p hp => h p (by simp [hp])),
      cacheFind_assign_other _ _ _ _ (h q (by simp))]

theorem foldAssign_find (ps : List SpeakerProfile) (c : Cache)
    (p : SpeakerProfile) (hp : p ∈ ps)
    (hnd : (ps.map fun sp => sp.speaker_id).Nodup) :
    cacheFind (ps.foldl (fun c sp => cacheAssign c sp.speaker_id sp) c)
      p.speaker_id = some p := by
  induction ps generalizing c with
  | nil => cases hp
  | cons q tl ih =>
    rw [List.foldl_cons]
    have hnd2 : (∀ x ∈ tl, ¬x.speaker_id = q.speaker_id) ∧
        (tl.map fun sp => sp.speaker_id).Nodup := by simpa using hnd
    rcases List.mem_cons.mp hp with rfl | htl
    · rw [foldAssign_preserves tl _ _ (fun x hx => hnd2.1 x hx),
        cacheFind_assign_self]
    · exact ih _ htl hnd2.2

/-! ### Theorems for claim C4 -/

/-- C4 amended: at startup *every* row of the speakers table is loaded into
the in-memory map, including rows whose declared `embedding_dim` disagrees
with the BLOB length divided by 4; no dim check is performed and no row is
skipped.  The loaded profile's embedding has the declared dimension (blob
floats first, zero-filled past the blob).  Startup is not aborted. -/
theorem load_cache_loads_every_row (rows : List SpeakerRow) (r : SpeakerRow)
    (hr : r ∈ rows)
    (hnd : (rows.map fun r => r.speaker_id).Nodup) :
    cacheFind (load_cache_from_db rows) r.speaker_id = some (loadRow r) ∧
    (loadRow r).embedding.length = r.embedding_dim.toNat := by
  constructor
  · rw [load_cache_from_db, load_all_speakers]
    have hid : (loadRow r).speaker_id = r.speaker_id := rfl
    rw [← hid]
    apply foldAssign_find _ _ _ (List.mem_map_of_mem loadRow hr)
    rw [List.map_map]
    exact hnd
  · simp [loadRow]

/-- Witness for `load_cache_loads_every_row` at a table whose single row
declares `embedding_dim = 2` but stores a 1-float BLOB (a mismatched row):
it is loaded anyway. -/
theorem load_cache_loads_every_row_witness :
    cacheFind (load_cache_from_db [⟨"a", [5], 2, 1⟩]) "a" =
      some (loadRow ⟨"a", [5], 2, 1⟩) ∧
    (loadRow ⟨"a", [5], 2, 1⟩).embedding.length =
      ((2 : ℤ)).toNat :=
  load_cache_loads_every_row [⟨"a", [5], 2, 1⟩] ⟨"a", [5], 2, 1⟩
    (by simp) (by simp)

/-- C4 counterexample: the row `("a", blob = [5], dim = 2, count = 1)` has
`dim = 2 ≠ 1 = len(BLOB)/4`, yet after loading it is present in the map
(with embedding `[5, 0]`), refuting the claim that such rows are skipped
and never enter the map. -/
theorem load_cache_mismatched_row_enters_map :
    cacheFind (load_cache_from_db [⟨"a", [5], 2, 1⟩]) "a" =
      some ⟨"a", [(5 : ℝ), 0], 1⟩ ∧
    (2 : ℤ) ≠ (([(5 : ℝ)]).length : ℤ) := by
  constructor
  · have h1 : loadRow ⟨"a", [5], 2, 1⟩ = ⟨"a", [(5 : ℝ), 0], 1⟩ := by
      rw [loadRow]
      simp [List.range_succ]
    rw [load_cache_from_db, load_all_speakers, List.map_cons, List.map_nil,
      List.foldl_cons, List.foldl_nil, h1]
    have : cacheAssign [] "a" ⟨"a", [(5 : ℝ), 0], 1⟩ =
        [("a", ⟨"a", [(5 : ℝ), 0], 1⟩)] := rfl
    rw [show ((⟨"a", [(5 : ℝ), 0], 1⟩ : SpeakerProfile)).speaker_id = "a"
      from rfl, this]
    simp [cacheFind]
  · simp

namespace Vad

/-! ### Voice activity detection (src/core/vad.cpp, VoiceActivityDetector)

`detect` walks the audio in 512-sample windows (`for (offset = 0;
offset + window_size <= audio.size(); offset += window_size)`), feeding
each window to the neural model and receiving one speech probability per
window.  The model is an external collaborator, so the embedding takes the
per-window probability sequence as input: `probs` has one entry per
processed window (`⌊audio_len / 512⌋` of them), and `audio_len` is the
sample count.  All sample arithmetic is C `int` arithmetic, modelled by
`ℤ`; probabilities and confidences are floats, modelled by `ℚ`.  For
`sample_rate ≥ 0` the C integer divisions in the millisecond-to-sample
conversions agree with Lean's `ℤ` division. -/

structure SpeechSegment where
  start_sample : ℤ
  end_sample : ℤ
  confidence : ℚ
deriving DecidableEq, Repr

def WINDOW_SIZE : ℤ := 512
def THRESHOLD : ℚ := 1 / 2
def MIN_SILENCE_DURATION_MS : ℤ := 300
def MIN_SPEECH_DURATION_MS : ℤ := 250

/-- The mutable locals of the segmentation loop. -/
structure DetectState where
  in_speech : Bool
  speech_start : ℤ
  silence_counter : ℤ
  conf_sum : ℚ
  frame_count : ℤ
  segs : List SpeechSegment
deriving DecidableEq, Repr

def initState : DetectState := ⟨false, 0, 0, 0, 0, []⟩

/-- The confidence recorded when a segment is emitted:
`frame_count > 0 ? conf_sum / frame_count : 0`. -/
def segConfidence (st : DetectState) : ℚ :=
  if st.frame_count > 0 then st.conf_sum / (st.frame_count : ℚ) else 0

/-- One iteration of the window loop at offset `cur` with model output `p`.
In the voiced open branch the source resets `conf_sum`/`frame_count` to `0`
and then immediately accumulates, hence `p` and `1` here. -/
def detectStep (w minSil minSpeech : ℤ) (st : DetectState) (cur : ℤ)
    (p : ℚ) : DetectState :=
  if p ≥ THRESHOLD then
    if st.in_speech then
      { st with
          silence_counter := 0
          conf_sum := st.conf_sum + p
          frame_count := st.frame_count + 1 }
    else
      { st with
          in_speech := true
          speech_start := cur
          silence_counter := 0
          conf_sum := p
          frame_count := 1 }
  else if st.in_speech then
    if st.silence_counter + w ≥ minSil then
      if (cur - (st.silence_counter + w) + w) - st.speech_start ≥
          minSpeech then
        { st with
            in_speech := false
            silence_counter := 0
            segs := st.segs ++ [⟨st.speech_start,
              cur - (st.silence_counter + w) + w, segConfidence st⟩] }
      else { st with in_speech := false, silence_counter := 0 }
    else { st with silence_counter := st.silence_counter + w }
  else st

def detectLoop (w minSil minSpeech : ℤ) :
    List ℚ → ℤ → DetectState → DetectState
  | [], _, st => st
  | p :: ps, cur, st =>
    detectLoop w minSil minSpeech ps (cur + w)
      (detectStep w minSil minSpeech st cur p)

/-- End-of-audio handling: close a segment still open at `audio.size()`,
subject to the same minimum-length rule. -/
def detectFinalize (len minSpeech : ℤ) (st : DetectState) :
    List SpeechSegment :=
  if st.in_speech ∧ len - st.speech_start ≥ minSpeech then
    st.segs ++ [⟨st.speech_start, len, segConfidence st⟩]
  else st.segs

/-- The merge pass over adjacent segments (`merged.back()` is `acc`). -/
def mergeGo (minSil : ℤ) : SpeechSegment → List SpeechSegment →
    List SpeechSegment
  | acc, [] => [acc]
  | acc, s :: rest =>
    if s.start_sample - acc.end_sample < minSil then
      mergeGo minSil ⟨acc.start_sample, s.end_sample,
        (acc.confidence + s.confidence) / 2⟩ rest
    else acc :: mergeGo minSil s rest

def mergeSegments (minSil : ℤ) : List SpeechSegment → List SpeechSegment
  | [] => []
  | s :: rest => mergeGo minSil s rest

def detect (sample_rate audio_len : ℤ) (probs : List ℚ) :
    List SpeechSegment :=
  mergeSegments (MIN_SILENCE_DURATION_MS * sample_rate / 1000)
    (detectFinalize audio_len (MIN_SPEECH_DURATION_MS * sample_rate / 1000)
      (detectLoop WINDOW_SIZE (MIN_SILENCE_DURATION_MS * sample_rate / 1000)
        (MIN_SPEECH_DURATION_MS * sample_rate / 1000) probs 0 initState))

/-- The loop invariant of the segmentation state machine; `cur` is the
offset of the next window to process. -/
def LoopInv (w minSil minSpeech cur : ℤ) (st : DetectState) : Prop :=
  0 ≤ cur ∧
  List.Chain' (fun a b => a.end_sample + minSil ≤ b.start_sample) st.segs ∧
  (∀ s ∈ st.segs, 0 ≤ s.start_sample ∧ s.start_sample + w ≤ s.end_sample ∧
    s.start_sample + minSpeech ≤ s.end_sample ∧ s.end_sample ≤ cur) ∧
  (st.in_speech = true → 0 ≤ st.speech_start ∧ 0 ≤ st.silence_counter ∧
    st.speech_start + st.silence_counter + w ≤ cur ∧
    ∀ s ∈ st.segs, s.end_sample + minSil ≤ st.speech_start) ∧
  (st.in_speech = false → ∀ s ∈ st.segs, s.end_sample + minSil ≤ cur)

end Vad

namespace Vad

theorem detectStep_inv (w minSil minSpeech cur : ℤ) (st : DetectState)
    (p : ℚ) (hw : 0 < w) (hms : 0 ≤ minSil)
    (hinv : LoopInv w minSil minSpeech cur st) :
    LoopInv w minSil minSpeech (cur + w)
      (detectStep w minSil minSpeech st cur p) := by
  obtain ⟨hcur, hchain, hwf, hin, hout⟩ := hinv
  rw [detectStep]
  split_ifs with h1 h2 h3 h4 h5
  · -- voiced, already in speech
    obtain ⟨hs0, hsil0, hbound, hgap⟩ := hin h2
    simp only [LoopInv]
    refine ⟨by omega, hchain, ?_, ?_, ?_⟩
    · intro s hs
      have := hwf s hs
      omega
    · intro _
      exact ⟨hs0, le_refl 0, by omega, hgap⟩
    · intro hfalse
      rw [h2] at hfalse
      cases hfalse
  · -- voiced, opening a new segment
    have hrest := hout (by simpa using h2)
    simp only [LoopInv]
    refine ⟨by omega, hchain, ?_, ?_, ?_⟩
    · intro s hs
      have := hwf s hs
      omega
    · intro _
      exact ⟨hcur, le_refl 0, by omega, fun s hs => hrest s hs⟩
    · intro hfalse
      cases hfalse
  · -- silent, in speech, silence threshold reached, segment long enough
    obtain ⟨hs0, hsil0, hbound, hgap⟩ := hin h3
    simp only [LoopInv]
    refine ⟨by omega, ?_, ?_, ?_, ?_⟩
    · rw [List.chain'_append]
      refine ⟨hchain, List.chain'_singleton _, ?_⟩
      intro a ha b hb
      simp only [List.head?_cons, Option.mem_def, Option.some.injEq] at hb
      subst hb
      have := hgap a (List.mem_of_mem_getLast? ha)
      simp only
      omega
    · intro s hs
      rcases List.mem_append.mp hs with hsl | hsr
      · have := hwf s hsl
        omega
      · simp only [List.mem_singleton] at hsr
        subst hsr
        simp only
        omega
    · intro hfalse
      cases hfalse
    · intro _ s hs
      rcases List.mem_append.mp hs with hsl | hsr
      · have := hgap s hsl
        omega
      · simp only [List.mem_singleton] at hsr
        subst hsr
        simp only
        omega
  · -- silent, in speech, silence threshold reached, segment too short
    obtain ⟨hs0, hsil0, hbound, hgap⟩ := hin h3
    simp only [LoopInv]
    refine ⟨by omega, hchain, ?_, ?_, ?_⟩
    · intro s hs
      have := hwf s hs
      omega
    · intro hfalse
      cases hfalse
    · intro _ s hs
      have := hgap s hs
      omega
  · -- silent, in speech, still counting silence
    obtain ⟨hs0, hsil0, hbound, hgap⟩ := hin h3
    simp only [LoopInv]
    refine ⟨by omega, hchain, ?_, ?_, ?_⟩
    · intro s hs
      have := hwf s hs
      omega
    · intro _
      exact ⟨hs0, by omega, by omega, hgap⟩
    · intro hfalse
      rw [h3] at hfalse
      cases hfalse
  · -- silent, not in speech
    have hrest := hout (by simpa using h3)
    simp only [LoopInv]
    refine ⟨by omega, hchain, ?_, fun htrue => absurd htrue h3, ?_⟩
    · intro s hs
      have := hwf s hs
      omega
    · intro _ s hs
      have := hrest s hs
      omega


theorem detectLoop_inv (w minSil minSpeech : ℤ) (probs : List ℚ) (cur : ℤ)
    (st : DetectState) (hw : 0 < w) (hms : 0 ≤ minSil)
    (hinv : LoopInv w minSil minSpeech cur st) :
    LoopInv w minSil minSpeech (cur + w * probs.length)
      (detectLoop w minSil minSpeech probs cur st) := by
  induction probs generalizing cur st with
  | nil => simpa using hinv
  | cons p ps ih =>
    rw [detectLoop]
    have hstep := detectStep_inv w minSil minSpeech cur st p hw hms hinv
    have := ih (cur + w) (detectStep w minSil minSpeech st cur p) hstep
    have harith : cur + w + w * (ps.length : ℤ) =
        cur + w * ((p :: ps).length : ℤ) := by
      rw [List.length_cons]
      push_cast
      ring
    rwa [harith] at this

theorem detectFinalize_props (w minSil minSpeech len cur : ℤ)
    (st : DetectState)
    (hinv : LoopInv w minSil minSpeech cur st) (hcl : cur ≤ len) :
    List.Chain' (fun a b => a.end_sample + minSil ≤ b.start_sample)
      (detectFinalize len minSpeech st) ∧
    ∀ s ∈ detectFinalize len minSpeech st,
      0 ≤ s.start_sample ∧ s.start_sample + w ≤ s.end_sample ∧
      s.start_sample + minSpeech ≤ s.end_sample ∧ s.end_sample ≤ len := by
  obtain ⟨hcur, hchain, hwf, hin, hout⟩ := hinv
  rw [detectFinalize]
  split_ifs with h
  · obtain ⟨hsp, hlong⟩ := h
    obtain ⟨hs0, hsil0, hbound, hgap⟩ := hin hsp
    constructor
    · rw [List.chain'_append]
      refine ⟨hchain, List.chain'_singleton _, ?_⟩
      intro a ha b hb
      simp only [List.head?_cons, Option.mem_def, Option.some.injEq] at hb
      subst hb
      have := hgap a (List.mem_of_mem_getLast? ha)
      simp only
      omega
    · intro s hs
      rcases List.mem_append.mp hs with hsl | hsr
      · have := hwf s hsl
        omega
      · simp only [List.mem_singleton] at hsr
        subst hsr
        simp only
        omega
  · refine ⟨hchain, fun s hs => ?_⟩
    have := hwf s hs
    omega

theorem mergeGo_eq_of_chain (minSil : ℤ) (acc : SpeechSegment)
    (rest : List SpeechSegment)
    (h : List.Chain' (fun a b => a.end_sample + minSil ≤ b.start_sample)
      (acc :: rest)) :
    mergeGo minSil acc rest = acc :: rest := by
  induction rest generalizing acc with
  | nil => rfl
  | cons s tl ih =>
    rw [mergeGo]
    obtain ⟨h1, h2⟩ := List.chain'_cons.mp h
    rw [if_neg (by omega), ih s h2]

theorem mergeSegments_eq_of_chain (minSil : ℤ) (l : List SpeechSegment)
    (h : List.Chain' (fun a b => a.end_sample + minSil ≤ b.start_sample) l) :
    mergeSegments minSil l = l := by
  cases l with
  | nil => rfl
  | cons s rest => exact mergeGo_eq_of_chain minSil s rest h

theorem chain_order_of_gap (w minSil : ℤ) (hw : 0 < w) (hms : 0 ≤ minSil)
    (l : List SpeechSegment)
    (hc : List.Chain' (fun a b => a.end_sample + minSil ≤ b.start_sample) l)
    (hwf : ∀ s ∈ l, s.start_sample + w ≤ s.end_sample) :
    List.Chain' (fun a b => a.start_sample < b.start_sample) l ∧
    List.Chain' (fun a b => a.end_sample ≤ b.start_sample) l := by
  induction l with
  | nil => simp
  | cons a rest ih =>
    cases rest with
    | nil => simp
    | cons b tl =>
      obtain ⟨hab, hrest⟩ := List.chain'_cons.mp hc
      have h1 := hwf a (by simp)
      obtain ⟨ih1, ih2⟩ := ih hrest (fun s hs => hwf s (by simp [hs]))
      exact ⟨List.chain'_cons.mpr ⟨by omega, ih1⟩,
        List.chain'_cons.mpr ⟨by omega, ih2⟩⟩

/-- C6: for every audio length and every per-window probability sequence
from the VAD model, the segment list returned by `detect` is sorted by
start sample, non-overlapping, each segment has `end > start` with both
inside the audio buffer, each segment is at least `min_speech_samples`
long, and adjacent segments are separated by at least
`min_silence_samples`.  The hypothesis ties `probs` to the audio: the loop
processes one window per 512 samples, so `probs.length · 512 ≤ audio_len`. -/
theorem detect_spec (sample_rate audio_len : ℤ) (probs : List ℚ)
    (hsr : 0 ≤ sample_rate)
    (hlen : (probs.length : ℤ) * WINDOW_SIZE ≤ audio_len) :
    List.Chain' (fun a b =>
        a.end_sample + MIN_SILENCE_DURATION_MS * sample_rate / 1000 ≤
          b.start_sample)
      (detect sample_rate audio_len probs) ∧
    List.Chain' (fun a b => a.end_sample ≤ b.start_sample)
      (detect sample_rate audio_len probs) ∧
    List.Chain' (fun a b => a.start_sample < b.start_sample)
      (detect sample_rate audio_len probs) ∧
    ∀ s ∈ detect sample_rate audio_len probs,
      0 ≤ s.start_sample ∧ s.start_sample < s.end_sample ∧
      MIN_SPEECH_DURATION_MS * sample_rate / 1000 ≤
        s.end_sample - s.start_sample ∧
      s.end_sample ≤ audio_len := by
  have hw : (0 : ℤ) < WINDOW_SIZE := by norm_num [WINDOW_SIZE]
  have hms : (0 : ℤ) ≤ MIN_SILENCE_DURATION_MS * sample_rate / 1000 :=
    Int.ediv_nonneg
      (mul_nonneg (by norm_num [MIN_SILENCE_DURATION_MS]) hsr) (by norm_num)
  have hms2 : (0 : ℤ) ≤ MIN_SPEECH_DURATION_MS * sample_rate / 1000 :=
    Int.ediv_nonneg
      (mul_nonneg (by norm_num [MIN_SPEECH_DURATION_MS]) hsr) (by norm_num)
  have hinv0 : LoopInv WINDOW_SIZE
      (MIN_SILENCE_DURATION_MS * sample_rate / 1000)
      (MIN_SPEECH_DURATION_MS * sample_rate / 1000) 0 initState := by
    refine ⟨le_refl 0, ?_, ?_, ?_, ?_⟩ <;> simp [initState]
  have hloop := detectLoop_inv WINDOW_SIZE
    (MIN_SILENCE_DURATION_MS * sample_rate / 1000)
    (MIN_SPEECH_DURATION_MS * sample_rate / 1000) probs 0 initState hw hms
    hinv0
  have hcl : 0 + WINDOW_SIZE * (probs.length : ℤ) ≤ audio_len := by
    rw [zero_add, mul_comm]
    exact hlen
  have hfin := detectFinalize_props WINDOW_SIZE
    (MIN_SILENCE_DURATION_MS * sample_rate / 1000)
    (MIN_SPEECH_DURATION_MS * sample_rate / 1000) audio_len _ _ hloop hcl
  rw [detect,
    mergeSegments_eq_of_chain (MIN_SILENCE_DURATION_MS * sample_rate / 1000)
      _ hfin.1]
  obtain ⟨hstrict, hle⟩ := chain_order_of_gap WINDOW_SIZE
    (MIN_SILENCE_DURATION_MS * sample_rate / 1000) hw hms _ hfin.1
    (fun s hs => (hfin.2 s hs).2.1)
  refine ⟨hfin.1, hle, hstrict, ?_⟩
  intro s hs
  have := hfin.2 s hs
  have hw2 : (0 : ℤ) < WINDOW_SIZE := hw
  omega

/-- Witness for `detect_spec`: two voiced windows over 1024 samples at
16 kHz. -/
theorem detect_spec_witness :
    List.Chain' (fun a b =>
        a.end_sample + MIN_SILENCE_DURATION_MS * 16000 / 1000 ≤
          b.start_sample)
      (detect 16000 1024 [1, 1]) ∧
    List.Chain' (fun a b => a.end_sample ≤ b.start_sample)
      (detect 16000 1024 [1, 1]) ∧
    List.Chain' (fun a b => a.start_sample < b.start_sample)
      (detect 16000 1024 [1, 1]) ∧
    ∀ s ∈ detect 16000 1024 [1, 1],
      0 ≤ s.start_sample ∧ s.start_sample < s.end_sample ∧
      MIN_SPEECH_DURATION_MS * 16000 / 1000 ≤
        s.end_sample - s.start_sample ∧
      s.end_sample ≤ 1024 :=
  detect_spec 16000 1024 [1, 1] (by norm_num)
    (by norm_num [WINDOW_SIZE])

end Vad

end VP
